import Mathlib

/-!
Verification of the tinyhiera resolution engine (choria-io/tinyhiera).

This file is a shallow embedding, in Lean 4, of the resolver implemented in
the repository's `resolver.go` (the revision whose `Resolve` has signature
`Resolve(root map[string]any, facts map[string]any, log Logger)`): the
generic decoded value tree (`any` in Go), numeric normalization, the
`{{ ... }}` template scanner, string- and typed-mode template expansion,
the recursive structural expander, shallow and deep merge, hierarchy
parsing and the main resolution loop, plus the `lookup` host function that
`genExprEnv` binds into the expression environment.

Modelling conventions:
* Go's `any` tree is the inductive `GoValue`; `map[string]any` is an
  association list (`GoMap`).  Go map iteration order is unspecified; the
  model iterates in list order, and theorems about merge results are stated
  through `mapGet`, which is insensitive to entry order.
* A 64-bit platform is modelled: `maxInt = 2^63 - 1`, `minInt = -2^63`
  (in Go, `maxInt = int(^uint(0) >> 1)`).
* Go `float64` leaves are modelled by their exact rational value (`ℚ`).
  Finite IEEE doubles are rationals; the operations the code performs on
  them (`math.Trunc(f) == f`, comparisons against `float64(minInt)` and
  `float64(maxInt)`) are exact on that representation.  NaN and infinities
  fail every comparison in the source's guards and pass through, so they
  are not represented.
* The expression engine (`github.com/expr-lang/expr`) is an external
  dependency; `exprParse` is abstracted as an `Evaluator`
  (expression text → value or error), and theorems about the resolver
  quantify over it.  The `lookup` closure built by `genExprEnv` over the
  gjson snapshot is modelled concretely (`lookupFn`) over a JSON tree.
-/

/-- The Go `any` value tree produced by the YAML/JSON decoders and accepted
by `Resolve`.  Constructors mirror the dynamic types the source switches on:
`nil`, `bool`, the integer types of every width, `float64`, `string`,
`[]any` and `map[string]any`. -/
inductive GoValue where
  | null
  | bool (b : Bool)
  | int (n : Int)
  | int8 (n : Int)
  | int16 (n : Int)
  | int32 (n : Int)
  | int64 (n : Int)
  | uint (n : Nat)
  | uint8 (n : Nat)
  | uint16 (n : Nat)
  | uint32 (n : Nat)
  | uint64 (n : Nat)
  | float (q : ℚ)
  | str (s : String)
  | list (xs : List GoValue)
  | map (m : List (String × GoValue))

/-- Go's `map[string]any`, modelled as an association list. -/
abbrev GoMap := List (String × GoValue)

/-- Reading a key from a Go map (first matching entry; Go maps have
distinct keys, which theorems assume through `Nodup` hypotheses where the
entry order could otherwise matter). -/
def mapGet : GoMap → String → Option GoValue
  | [], _ => none
  | (k', v') :: rest, k => if k' = k then some v' else mapGet rest k

/-- Writing a key into a Go map: replace the existing entry, or append. -/
def mapSet : GoMap → String → GoValue → GoMap
  | [], k, v => [(k, v)]
  | (k', v') :: rest, k, v =>
    if k' = k then (k, v) :: rest else (k', v') :: mapSet rest k v

/-- The keys of a Go map. -/
def mapKeys (m : GoMap) : List String := m.map Prod.fst

/-- `maxInt` for a 64-bit platform: `int(^uint(0) >> 1)` in the source. -/
def maxInt : Int := 2 ^ 63 - 1

/-- `minInt` for a 64-bit platform: `-maxInt - 1` in the source. -/
def minInt : Int := -maxInt - 1

/-- The float bound `float64(minInt)` used by `normalizeNumericValues`:
`-2^63` is a power of two and converts to `float64` exactly. -/
def minIntF : ℚ := -(2 ^ 63)

/-- The float bound `float64(maxInt)` used by `normalizeNumericValues`.
Note: `maxInt = 2^63 - 1` is not representable as a `float64`; the Go
conversion rounds to nearest, producing exactly `2^63`.  The guard in the
source therefore admits the double `2^63`, whose magnitude does not fit the
native int range. -/
def maxIntF : ℚ := 2 ^ 63

mutual

/-- Embedding of `normalizeNumericValues` (resolver.go): walks the tree and
converts numeric leaves to the native `int` when the source's guards say
they fit.  Case-for-case with the Go type switch; note that the source's
combined case `case int, int8, int16, int32: return typed` returns the
original value unconverted (the Go `typed` in a multi-type case is the
untouched `any`), so `int8/int16/int32` leaves pass through unchanged.
For a guard-passing float the source executes `int(typed)`; for every
reachable in-range value that conversion is exact truncation, modelled as
`q.num` (the guard forces `q.den = 1`).  For the one reachable out-of-range
value, the double `2^63`, Go's conversion result is implementation-defined;
the model keeps the exact integer `2^63` in the (unbounded) `.int` payload,
and no theorem depends on that payload. -/
def normalizeNumericValues : GoValue → GoValue
  | .map m => .map (normFields m)
  | .list xs => .list (normItems xs)
  | .int64 n => if minInt ≤ n ∧ n ≤ maxInt then .int n else .int64 n
  | .uint64 n => if (n : Int) ≤ maxInt then .int n else .uint64 n
  | .float q => if q.den = 1 ∧ minIntF ≤ q ∧ q ≤ maxIntF then .int q.num else .float q
  | .int n => .int n
  | .int8 n => .int8 n
  | .int16 n => .int16 n
  | .int32 n => .int32 n
  | .uint n => if (n : Int) ≤ maxInt then .int n else .uint n
  | .uint8 n => .int n
  | .uint16 n => .int n
  | .uint32 n => if (n : Int) ≤ (4294967295 : Int) then .int n else .uint32 n
  | .null => .null
  | .bool b => .bool b
  | .str s => .str s

/-- `normalizeNumericValues` on the entries of a `map[string]any`. -/
def normFields : List (String × GoValue) → List (String × GoValue)
  | [] => []
  | (k, v) :: rest => (k, normalizeNumericValues v) :: normFields rest

/-- `normalizeNumericValues` on the elements of a `[]any`. -/
def normItems : List GoValue → List GoValue
  | [] => []
  | v :: rest => normalizeNumericValues v :: normItems rest

end

/-- Characters matched by `\s` in Go's regexp (RE2): `[\t\n\f\r ]`. -/
def reSpace (c : Char) : Bool :=
  c == ' ' || c == '\t' || c == '\n' || c == '\x0c' || c == '\r'

/-- Strip leading and trailing `\s` characters (what the greedy `\s*` groups
around the lazy capture in `{{\s*(.*?)\s*}}` absorb). -/
def trimReSpace (cs : List Char) : List Char :=
  ((cs.dropWhile reSpace).reverse.dropWhile reSpace).reverse

/-- ASCII fragment of `unicode.IsSpace`, as used by `strings.TrimSpace`.
Non-ASCII Unicode spaces are outside the modelled input subset. -/
def goIsSpace (c : Char) : Bool :=
  c == ' ' || c == '\t' || c == '\n' || c == '\x0b' || c == '\x0c' || c == '\r'

/-- `strings.TrimSpace` on the modelled (ASCII-space) subset. -/
def goTrimSpace (s : String) : String :=
  String.mk (((s.toList.dropWhile goIsSpace).reverse.dropWhile goIsSpace).reverse)

/-- `strings.ToLower` on the modelled (ASCII) subset. -/
def goToLower (s : String) : String := String.mk (s.toList.map Char.toLower)

/-- Split a character list at the first occurrence of the two-character
sequence `a b`: returns the part before it and the part after it. -/
def findSub (a b : Char) : List Char → Option (List Char × List Char)
  | [] => none
  | [_] => none
  | x :: y :: rest =>
    if x == a && y == b then some ([], rest)
    else
      match findSub a b (y :: rest) with
      | some (p, s) => some (x :: p, s)
      | none => none

/-- One piece of a template string: literal text, or the (whitespace-trimmed)
inner text of one `{{ ... }}` span. -/
inductive Piece where
  | lit (s : String)
  | expr (inner : String)

/-- Whether a piece is a `{{ ... }}` span. -/
def Piece.isExpr : Piece → Bool
  | .expr _ => true
  | .lit _ => false

/-- Fuel-driven scanner for the Go regular expression `{{\s*(.*?)\s*}}`
under leftmost, non-overlapping matching (`FindAllStringSubmatchIndex`):
at each `{{`, the match ends at the earliest following `}}`, the greedy
`\s*` groups absorb the whitespace at both ends of the enclosed segment,
and the lazy `(.*?)` captures what remains — which must contain no newline,
since `.` does not match `\n`.  If the earliest `}}` leaves a newline inside
the capture, no later `}}` can repair it (extending the segment only ever
makes an interior newline stay interior), so the scan moves to the next
`{{`.  Each recursive call consumes at least one character, so fuel
`length + 1` (supplied by `scan`) never runs out. -/
def scanF : Nat → List Char → List Piece
  | 0, cs => [Piece.lit (String.mk cs)]
  | Nat.succ fuel, cs =>
    match findSub '{' '{' cs with
    | none => [Piece.lit (String.mk cs)]
    | some (pre, rest) =>
      match findSub '}' '}' rest with
      | none => [Piece.lit (String.mk cs)]
      | some (seg, rest2) =>
        if (trimReSpace seg).all (fun c => c != '\n') then
          Piece.lit (String.mk pre) :: Piece.expr (String.mk (trimReSpace seg)) :: scanF fuel rest2
        else
          Piece.lit (String.mk (pre ++ ['{'])) :: scanF fuel ('{' :: rest)

/-- The pieces of a template string (see `scanF`). -/
def scan (cs : List Char) : List Piece := scanF (cs.length + 1) cs

/-- The inner texts of the `{{ ... }}` spans of a template, in order
(the capture groups of `FindAllStringSubmatch`). -/
def exprsOf (template : String) : List String :=
  (scan template.toList).filterMap fun p =>
    match p with
    | .expr e => some e
    | .lit _ => none

/-- Approximate rendering of a `float64` under `fmt.Sprint` (`%v`): whole
values print as integers (Go prints `float64(1)` as `1`); other values use
a placeholder rational rendering.  No theorem inspects this text. -/
def ratSprint (q : ℚ) : String :=
  if q.den = 1 then toString q.num else toString q.num ++ "/" ++ toString q.den

/-- Insert a string into an ordered list (ascending). -/
def insertStr (s : String) : List String → List String
  | [] => [s]
  | hd :: tl => if compare s hd == Ordering.gt then hd :: insertStr s tl else s :: hd :: tl

/-- Insertion sort on strings, for `fmt`'s sorted map-key rendering. -/
def sortStrs : List String → List String
  | [] => []
  | s :: rest => insertStr s (sortStrs rest)

/-- Join strings with single spaces, as `fmt` renders slice and map bodies. -/
def joinSpace : List String → String
  | [] => ""
  | [s] => s
  | s :: rest => s ++ " " ++ joinSpace rest

mutual

/-- `fmt.Sprint` of a Go value, as used to stringify an evaluated span in
string-mode expansion.  Scalars follow Go's `%v` text; maps render as
`map[k:v ...]` with entries sorted (fmt sorts map keys; sorting the
rendered `k:v` strings agrees with key order for the modelled inputs);
slices render as `[e ...]`. -/
def goSprint : GoValue → String
  | .null => "<nil>"
  | .bool b => if b then "true" else "false"
  | .int n => toString n
  | .int8 n => toString n
  | .int16 n => toString n
  | .int32 n => toString n
  | .int64 n => toString n
  | .uint n => toString n
  | .uint8 n => toString n
  | .uint16 n => toString n
  | .uint32 n => toString n
  | .uint64 n => toString n
  | .float q => ratSprint q
  | .str s => s
  | .list xs => "[" ++ joinSpace (sprintItems xs) ++ "]"
  | .map m => "map[" ++ joinSpace (sortStrs (sprintFields m)) ++ "]"

/-- Rendered elements of a slice. -/
def sprintItems : List GoValue → List String
  | [] => []
  | v :: rest => goSprint v :: sprintItems rest

/-- Rendered `k:v` entries of a map. -/
def sprintFields : List (String × GoValue) → List String
  | [] => []
  | (k, v) :: rest => (k ++ ":" ++ goSprint v) :: sprintFields rest

end

/-- `strings.HasPrefix`, via the character list. -/
def goHasPrefix (s pre : String) : Bool := pre.toList.isPrefixOf s.toList

/-- `strings.HasSuffix`, via the character list. -/
def goHasSuffix (s suf : String) : Bool := suf.toList.reverse.isPrefixOf s.toList.reverse

/-- The expression engine applied to one span's inner text: `exprParse`
compiles and runs the text with `github.com/expr-lang/expr` (an external
library) in the environment built by `genExprEnv`.  The engine is
abstracted as a function from expression text to a value or an error
message; resolver theorems quantify over it. -/
abbrev Evaluator := String → Except String GoValue

/-- The per-span matched flag computed by `applyFactsString`'s type switch:
an empty string or nil does not count as a match, everything else does. -/
def spanFlag : GoValue → Bool
  | .str s => s ≠ ""
  | .null => false
  | _ => true

/-- The body of `applyFactsString`'s loop over the regex matches: evaluates
each span in order (aborting on the first evaluation error, like the
source's early return), concatenates literal text with the `fmt.Sprint` of
each span value, and collects the per-span matched flags. -/
def runPieces (ev : Evaluator) : List Piece → Except String (String × List Bool)
  | [] => .ok ("", [])
  | .lit s :: rest =>
    match runPieces ev rest with
    | .ok (out, flags) => .ok (s ++ out, flags)
    | .error e => .error e
  | .expr inner :: rest =>
    match ev inner with
    | .error e => .error e
    | .ok v =>
      match runPieces ev rest with
      | .ok (out, flags) => .ok (goSprint v ++ out, spanFlag v :: flags)
      | .error e => .error e

/-- Embedding of `applyFactsString` (string-mode expansion): when the
template has no `{{ ... }}` span the template itself is returned and
matched is `template != ""`; otherwise every span is evaluated and
stringified in place and matched is true iff some span's flag is true
(`slices.Contains(matched, true)`). -/
def applyFactsString (ev : Evaluator) (template : String) : Except String (String × Bool) :=
  let pieces := scan template.toList
  if pieces.any Piece.isExpr then
    match runPieces ev pieces with
    | .ok (out, flags) => .ok (out, flags.any id)
    | .error e => .error e
  else
    .ok (template, template != "")

/-- Embedding of `applyFactsTyped` (typed-mode expansion): with no span the
template is returned as a string; with exactly one regex match and a
trimmed template that starts with `{{` and ends with `}}`, the evaluator's
result is returned directly with its type preserved; otherwise the string
mode result is returned (dropping the matched flag). -/
def applyFactsTyped (ev : Evaluator) (template : String) : Except String GoValue :=
  let exprs := exprsOf template
  let trimmed := goTrimSpace template
  match exprs with
  | [] => .ok (.str template)
  | [inner] =>
    if goHasPrefix trimmed "\x7b\x7b" && goHasSuffix trimmed "\x7d\x7d" then
      ev inner
    else
      match applyFactsString ev template with
      | .ok (out, _) => .ok (.str out)
      | .error e => .error e
  | _ =>
    match applyFactsString ev template with
    | .ok (out, _) => .ok (.str out)
    | .error e => .error e

mutual

/-- Embedding of `expandExprValuesRecursively`: typed-mode expansion on
every string leaf, recursion into maps and slices, everything else
unchanged. -/
def expandValue (ev : Evaluator) : GoValue → Except String GoValue
  | .str s => applyFactsTyped ev s
  | .map m =>
    match expandFields ev m with
    | .ok m' => .ok (.map m')
    | .error e => .error e
  | .list xs =>
    match expandItems ev xs with
    | .ok xs' => .ok (.list xs')
    | .error e => .error e
  | v => .ok v

/-- `expandExprValuesRecursively` over map entries; also the body of
`expandMapExprValues`, which expands each top-level value of a map. -/
def expandFields (ev : Evaluator) : List (String × GoValue) → Except String (List (String × GoValue))
  | [] => .ok []
  | (k, v) :: rest =>
    match expandValue ev v with
    | .ok v' =>
      match expandFields ev rest with
      | .ok rest' => .ok ((k, v') :: rest')
      | .error e => .error e
    | .error e => .error e

/-- `expandExprValuesRecursively` over slice elements. -/
def expandItems (ev : Evaluator) : List GoValue → Except String (List GoValue)
  | [] => .ok []
  | v :: rest =>
    match expandValue ev v with
    | .ok v' =>
      match expandItems ev rest with
      | .ok rest' => .ok (v' :: rest')
      | .error e => .error e
    | .error e => .error e

end

/-- `cloneValue` deep-copies maps and slices so the engine never mutates
caller state.  In this pure-value model a copy is indistinguishable from
the original, so cloning is the identity; the aliasing discipline itself is
a heap property outside a shallow embedding. -/
def cloneValue (v : GoValue) : GoValue := v

/-- `cloneMap`, the map form of `cloneValue` (identity in the pure model). -/
def cloneMap (m : GoMap) : GoMap := m

/-- Embedding of `shallowMerge`: copy the target, then write every source
entry over it without recursion. -/
def shallowMerge : GoMap → GoMap → GoMap
  | target, [] => target
  | target, (key, value) :: rest => shallowMerge (mapSet target key (cloneValue value)) rest

mutual

/-- Embedding of `deepMerge`: copy the target, then fold every source entry
in with `mergeVal` applied to the existing value (if any) and the incoming
value. -/
def deepMerge : GoMap → GoMap → GoMap
  | target, [] => target
  | target, (key, value) :: rest =>
    deepMerge (mapSet target key (mergeVal (mapGet target key) value)) rest
termination_by _ s => sizeOf s

/-- The per-key case analysis of `deepMerge`'s loop body: an existing map
merged with an incoming map recurses; an existing slice concatenated with
an incoming slice keeps the (cloned) existing elements first and appends
the incoming ones in order; every other combination stores the (cloned)
incoming value. -/
def mergeVal : Option GoValue → GoValue → GoValue
  | some (GoValue.map em), GoValue.map im => GoValue.map (deepMerge em im)
  | some (GoValue.list el), GoValue.list il => GoValue.list (el.map cloneValue ++ il)
  | _, incoming => cloneValue incoming
termination_by _ v => sizeOf v

end

/-- The parsed `hierarchy` section: lookup order and merge-mode selector. -/
structure Hierarchy where
  order : List String
  merge : String

/-- The error kinds `Resolve` can return. -/
inductive RErr where
  | schema (msg : String)
  | evalErr (msg : String)
  | mergeMode (mode : String)

/-- The observable outcome of a `Resolve` call: a result map, an error, or
a runtime panic (an unchecked type assertion firing). -/
inductive Outcome where
  | ok (result : GoMap)
  | err (e : RErr)
  | panicked (msg : String)

/-- Embedding of `parseHierarchy`: `hierarchy` must be a map, its `order` a
list of strings; a non-string (or absent) `merge` silently becomes `""`. -/
def parseOrder : List GoValue → Except RErr (List String)
  | [] => .ok []
  | .str s :: rest =>
    match parseOrder rest with
    | .ok order => .ok (s :: order)
    | .error e => .error e
  | _ :: _ => .error (.schema "hierarchy.order must contain only strings")

/-- Embedding of `parseHierarchy` (see `parseOrder`). -/
def parseHierarchy (root : GoMap) : Except RErr Hierarchy :=
  match mapGet root "hierarchy" with
  | some (.map raw) =>
    match mapGet raw "order" with
    | some (.list items) =>
      match parseOrder items with
      | .ok order =>
        let merge := match mapGet raw "merge" with
          | some (.str s) => s
          | _ => ""
        .ok ⟨order, merge⟩
      | .error e => .error e
    | _ => .error (.schema "hierarchy.order must be a list")
  | _ => .error (.schema "hierarchy section is required")

/-- The `overrides` extraction at the top of `Resolve`: when the key is
present the source runs the unchecked assertion
`root["overrides"].(map[string]any)`, which panics unless the value is a
string-keyed map; when absent, `overrides` stays a nil map (every lookup
misses), modelled as the empty map.  `none` here means the panic fires. -/
def checkOverrides (nroot : GoMap) : Option GoMap :=
  match mapGet nroot "overrides" with
  | none => some []
  | some (.map m) => some m
  | some _ => none

/-- Whether the base-data section (under the data key) is present and a
map: `data, hasData := root[dataKey].(map[string]any)`. -/
def hasDataSection (dk : String) (nroot : GoMap) : Bool :=
  match mapGet nroot dk with
  | some (.map _) => true
  | _ => false

/-- The accumulator seed: the cloned base-data section expanded with
`expandMapExprValues`, or the empty map when the section is absent or not
a map. -/
def seedBase (ev : Evaluator) (dk : String) (nroot : GoMap) : Except RErr GoMap :=
  match mapGet nroot dk with
  | some (.map d) =>
    match expandFields ev (cloneMap d) with
    | .ok b => .ok b
    | .error e => .error (.evalErr e)
  | _ => .ok []

/-- The straight-line prefix of `Resolve` before the order loop: numeric
normalization (the root, being a map, always normalizes to a map, but the
source's `ok` test is kept), the `overrides` assertion, hierarchy parsing,
accumulator seeding, and merge-mode normalization (lowercase, empty
defaults to `first`).  Returns the state the loop starts from, or the
outcome that ends the call early.  The data key `dk` is `"data"` in the
source; it is a parameter so that the options-bearing entry point can
configure it. -/
def resolvePrep (ev : Evaluator) (dk : String) (root : GoMap) :
    Except Outcome (GoMap × Bool × String × List String × GoMap) :=
  match normalizeNumericValues (.map root) with
  | .map nroot =>
    match checkOverrides nroot with
    | none => .error (.panicked "interface conversion: overrides is not map[string]any")
    | some ovr =>
      match parseHierarchy nroot with
      | .error e => .error (.err e)
      | .ok h =>
        match seedBase ev dk nroot with
        | .error e => .error (.err e)
        | .ok base =>
          let lowered := goToLower h.merge
          let mode := if lowered = "" then "first" else lowered
          .ok (ovr, hasDataSection dk nroot, mode, h.order, base)
  | _ => .error (.err (.schema "root document must be a map"))

/-- The order loop of `Resolve`: expand each entry in string mode, skip
unmatched entries, skip the data-key alias when base data is present, skip
entries with no map fragment in `overrides`, expand the fragment, and
apply the merge mode — `deep` folds and continues, `first` shallow-merges
and returns, anything else is the unsupported-merge-mode error. -/
def resolveLoop (ev : Evaluator) (ovr : GoMap) (hasData : Bool) (dk : String)
    (mode : String) : List String → GoMap → Outcome
  | [], base => .ok base
  | entry :: rest, base =>
    match applyFactsString ev entry with
    | .error e => .err (.evalErr e)
    | .ok (resolvedKey, matched) =>
      if matched = false then resolveLoop ev ovr hasData dk mode rest base
      else if resolvedKey = dk ∧ hasData = true then resolveLoop ev ovr hasData dk mode rest base
      else
        match mapGet ovr resolvedKey with
        | some (.map candidate) =>
          match expandFields ev (cloneMap candidate) with
          | .error e => .err (.evalErr e)
          | .ok candExp =>
            if mode = "deep" then resolveLoop ev ovr hasData dk mode rest (deepMerge base candExp)
            else if mode = "first" then .ok (shallowMerge base candExp)
            else .err (.mergeMode mode)
        | _ => resolveLoop ev ovr hasData dk mode rest base

/-- The resolution pipeline with a configurable data key: prefix then loop. -/
def resolveCore (ev : Evaluator) (dk : String) (root : GoMap) : Outcome :=
  match resolvePrep ev dk root with
  | .error o => o
  | .ok (ovr, hasData, mode, order, base) => resolveLoop ev ovr hasData dk mode order base

/-- Embedding of `Resolve(root, facts, log)`: the data key is the literal
`"data"`.  The optional logger only emits a debug trace per matched entry
and has no influence on the result, so it is not modelled. -/
def Resolve (ev : Evaluator) (root : GoMap) : Outcome :=
  resolveCore ev "data" root

/-- Modelled from the spec: the options configuration accepted by the
options-bearing `Resolve(document, facts, options, logger?)` entry point,
with its one recognized option `dataKey` naming the base-data section.
That revision of `Resolve` is exercised by the repository's tests
(`Resolve(data, facts, Options{DataKey: "config"}, nil)`) but its
implementation is not among the provided sources. -/
structure Options where
  dataKey : String

/-- Modelled from the spec: the default options, `dataKey = "data"`. -/
def DefaultOptions : Options := ⟨"data"⟩

/-- Modelled from the spec: `Resolve` with an options argument — the same
pipeline with the configured data key naming the base-data section (seeding
and the reserved-alias skip both use the configured key, per the spec's
§4.5 step c and §9). -/
def ResolveOpts (ev : Evaluator) (opts : Options) (root : GoMap) : Outcome :=
  resolveCore ev opts.dataKey root

/-- A JSON document tree, the shape of the serialized facts snapshot that
`genExprEnv` builds once per resolution (`json.Marshal` of the facts with
the previous `lookup` binding removed) and queries with
`gjson.GetBytes`.  A number node keeps its raw literal text, which is what
`res.Raw` exposes and what the decimal-point test inspects. -/
inductive Json where
  | null
  | bool (b : Bool)
  | num (raw : String)
  | str (s : String)
  | arr (elems : List Json)
  | obj (fields : List (String × Json))

/-- `strings.Contains(raw, ".")`, via the character list. -/
def containsDot (s : String) : Bool := s.toList.any (fun c => c == '.')

/-- Split a character list at every `'.'`, as gjson's path parser divides a
dotted path into components. -/
def splitDots : List Char → List (List Char)
  | [] => [[]]
  | c :: rest =>
    let r := splitDots rest
    if c == '.' then [] :: r
    else
      match r with
      | hd :: tl => (c :: hd) :: tl
      | [] => [[c]]

/-- The components of a dotted gjson path. -/
def pathSegs (path : String) : List String := (splitDots path.toList).map String.mk

/-- Field lookup in a JSON object. -/
def jsonField : List (String × Json) → String → Option Json
  | [], _ => none
  | (k', v) :: rest, k => if k' = k then some v else jsonField rest k

/-- The modelled subset of gjson path resolution: dot-separated components,
each selecting an object field by name or an array element by decimal
index.  gjson's query, wildcard and modifier syntax is outside the
modelled subset. -/
def jsonGet : Json → List String → Option Json
  | j, [] => some j
  | .obj fields, seg :: rest =>
    match jsonField fields seg with
    | some v => jsonGet v rest
    | none => none
  | .arr elems, seg :: rest =>
    match seg.toNat? with
    | some i =>
      match elems.get? i with
      | some v => jsonGet v rest
      | none => none
    | none => none
  | _, _ :: _ => none

/-- Exact rational value of a decimal literal (optional sign, integer part,
optional fraction), the modelled subset of `strconv` float parsing used by
`res.Float()`; IEEE rounding of the parsed value and exponent notation are
outside the modelled subset, and no theorem depends on the parsed value. -/
def decToRat (s : String) : ℚ :=
  match s.splitOn "." with
  | [ipart] => ((ipart.toInt?.getD 0 : Int) : ℚ)
  | [ipart, fpart] =>
    let sign : ℚ := if goHasPrefix ipart "-" then -1 else 1
    ((ipart.toInt?.getD 0 : Int) : ℚ) + sign * ((fpart.toNat?.getD 0 : Nat) : ℚ) / ((10 : ℚ) ^ fpart.length)
  | _ => 0

/-- `res.Int()` on a dot-free numeric literal: the parsed integer.
Literals in exponent notation are outside the modelled subset. -/
def rawToInt (s : String) : Int := s.toInt?.getD 0

mutual

/-- `res.Value()`: the JSON node as a Go value.  gjson materializes every
JSON number as `float64`, hence the `.float` for nested numbers. -/
def jsonToGo : Json → GoValue
  | .null => .null
  | .bool b => .bool b
  | .num raw => .float (decToRat raw)
  | .str s => .str s
  | .arr elems => .list (jsonGoItems elems)
  | .obj fields => .map (jsonGoFields fields)

/-- `res.Value()` over array elements. -/
def jsonGoItems : List Json → List GoValue
  | [] => []
  | j :: rest => jsonToGo j :: jsonGoItems rest

/-- `res.Value()` over object fields. -/
def jsonGoFields : List (String × Json) → List (String × GoValue)
  | [] => []
  | (k, j) :: rest => (k, jsonToGo j) :: jsonGoFields rest

end

/-- Embedding of the `lookup` host function that `genExprEnv` binds into
the expression environment: resolve the path against the facts snapshot;
a miss returns the explicit default (or `""` with no default) and never an
error; a numeric hit returns `res.Float()` or `res.Int()` according to
whether the raw literal contains a decimal point; every other hit passes
through as `res.Value()`. -/
def lookupFn (snapshot : Json) (path : String) (args : List GoValue) : GoValue :=
  let dflt := match args with
    | a :: _ => a
    | [] => .str ""
  match jsonGet snapshot (pathSegs path) with
  | none => dflt
  | some res =>
    match res with
    | .num raw => if containsDot raw then .float (decToRat raw) else .int (rawToInt raw)
    | other => jsonToGo other

theorem mapGet_mapSet (m : GoMap) (k key : String) (v : GoValue) :
    mapGet (mapSet m k v) key = if k = key then some v else mapGet m key := by
  induction m with
  | nil => simp [mapSet, mapGet]
  | cons hd tl ih =>
    obtain ⟨k', v'⟩ := hd
    by_cases h1 : k' = k
    · subst h1
      by_cases h2 : k' = key <;> simp [mapSet, mapGet, h2]
    · by_cases h2 : k' = key
      · subst h2
        have : ¬ k = k' := fun h => h1 h.symm
        simp [mapSet, mapGet, h1, this]
      · simp [mapSet, mapGet, h1, h2, ih]

theorem mapGet_not_mem (m : GoMap) (key : String) (h : key ∉ mapKeys m) :
    mapGet m key = none := by
  induction m with
  | nil => simp [mapGet]
  | cons hd tl ih =>
    obtain ⟨k', v'⟩ := hd
    rw [show mapKeys ((k', v') :: tl) = k' :: mapKeys tl from rfl] at h
    simp only [List.mem_cons, not_or] at h
    have h1 : ¬ k' = key := fun hk => h.1 hk.symm
    simp [mapGet, h1, ih h.2]

theorem mapKeys_nodup_tail {k : String} {v : GoValue} {tl : GoMap}
    (h : (mapKeys ((k, v) :: tl)).Nodup) : (mapKeys tl).Nodup := by
  simpa [mapKeys] using h.of_cons

theorem mapKeys_nodup_head {k : String} {v : GoValue} {tl : GoMap}
    (h : (mapKeys ((k, v) :: tl)).Nodup) : k ∉ mapKeys tl := by
  simp [mapKeys] at h
  simpa [mapKeys] using h.1

/-- Key-level semantics of `deepMerge`: reading any key of the merged map
gives the target's value where the source does not define the key, and
`mergeVal` of the two values where it does. -/
theorem deepMerge_get : ∀ (s t : GoMap) (key : String), (mapKeys s).Nodup →
    mapGet (deepMerge t s) key =
      match mapGet s key with
      | none => mapGet t key
      | some v => some (mergeVal (mapGet t key) v) := by
  intro s
  induction s with
  | nil => intro t key _; simp [deepMerge, mapGet]
  | cons hd tl ih =>
    obtain ⟨k0, v0⟩ := hd
    intro t key hnd
    have hstep : deepMerge t ((k0, v0) :: tl)
        = deepMerge (mapSet t k0 (mergeVal (mapGet t k0) v0)) tl := by
      simp [deepMerge]
    rw [hstep, ih _ key (mapKeys_nodup_tail hnd)]
    by_cases hkey : k0 = key
    · subst hkey
      have hnone : mapGet tl k0 = none := mapGet_not_mem _ _ (mapKeys_nodup_head hnd)
      simp [hnone, mapGet, mapGet_mapSet]
    · cases h : mapGet tl key <;> simp [mapGet, hkey, mapGet_mapSet, h]

/-- Key-level semantics of `shallowMerge`: the source's value where it
defines the key, the target's value otherwise — no recursion into values. -/
theorem shallowMerge_get : ∀ (s t : GoMap) (key : String), (mapKeys s).Nodup →
    mapGet (shallowMerge t s) key =
      match mapGet s key with
      | none => mapGet t key
      | some v => some v := by
  intro s
  induction s with
  | nil => intro t key _; simp [shallowMerge, mapGet]
  | cons hd tl ih =>
    obtain ⟨k0, v0⟩ := hd
    intro t key hnd
    have hstep : shallowMerge t ((k0, v0) :: tl)
        = shallowMerge (mapSet t k0 (cloneValue v0)) tl := by
      simp [shallowMerge]
    rw [hstep, ih _ key (mapKeys_nodup_tail hnd)]
    by_cases hkey : k0 = key
    · subst hkey
      have hnone : mapGet tl k0 = none := mapGet_not_mem _ _ (mapKeys_nodup_head hnd)
      simp [hnone, mapGet, mapGet_mapSet, cloneValue]
    · cases h : mapGet tl key <;> simp [mapGet, hkey, mapGet_mapSet, h]

theorem normFields_get : ∀ (m : GoMap) (k : String),
    mapGet (normFields m) k = (mapGet m k).map normalizeNumericValues := by
  intro m k
  induction m with
  | nil => simp [normFields, mapGet]
  | cons hd tl ih =>
    obtain ⟨k', v'⟩ := hd
    by_cases h : k' = k <;> simp [normFields, mapGet, h, ih]

theorem normalizeNumericValues_not_map (v : GoValue) (h : ∀ x, v ≠ GoValue.map x) :
    ∀ y, normalizeNumericValues v ≠ GoValue.map y := by
  intro y
  cases v <;> simp [normalizeNumericValues] <;> first
    | exact (h _ rfl).elim
    | skip
  all_goals split <;> simp

/-- A span value that counts as matched in the claim's words: a non-empty
string, or any non-null, non-string value. -/
def claimMatched (v : GoValue) : Prop :=
  (∃ s, v = GoValue.str s ∧ s ≠ "") ∨ (v ≠ GoValue.null ∧ ∀ s, v ≠ GoValue.str s)

theorem spanFlag_iff_claimMatched (v : GoValue) : spanFlag v = true ↔ claimMatched v := by
  cases v <;> simp [spanFlag, claimMatched]

theorem runPieces_flags (ev : Evaluator) :
    ∀ (ps : List Piece) (out : String) (flags : List Bool),
      runPieces ev ps = .ok (out, flags) →
      (flags.any id = true ↔
        ∃ e, Piece.expr e ∈ ps ∧ ∃ v, ev e = .ok v ∧ spanFlag v = true) := by
  intro ps
  induction ps with
  | nil =>
    intro out flags h
    simp [runPieces] at h
    simp [h.2]
  | cons hd tl ih =>
    intro out flags h
    cases hd with
    | lit s =>
      rw [show runPieces ev (Piece.lit s :: tl)
        = match runPieces ev tl with
          | .ok (o, fs) => .ok (s ++ o, fs)
          | .error e => .error e from rfl] at h
      cases htl : runPieces ev tl with
      | error e => rw [htl] at h; cases h
      | ok p =>
        obtain ⟨o, fs⟩ := p
        rw [htl] at h
        simp only [Except.ok.injEq, Prod.mk.injEq] at h
        obtain ⟨hout, hflags⟩ := h
        subst hflags
        rw [ih o fs htl]
        constructor
        · rintro ⟨e, he, hv⟩; exact ⟨e, by simp [he], hv⟩
        · rintro ⟨e, he, hv⟩
          simp only [List.mem_cons] at he
          rcases he with he | he
          · cases he
          · exact ⟨e, he, hv⟩
    | expr inner =>
      rw [show runPieces ev (Piece.expr inner :: tl)
        = match ev inner with
          | .error e => .error e
          | .ok v =>
            match runPieces ev tl with
            | .ok (o, fs) => .ok (goSprint v ++ o, spanFlag v :: fs)
            | .error e => .error e from rfl] at h
      cases hev : ev inner with
      | error e => rw [hev] at h; cases h
      | ok v =>
        rw [hev] at h
        cases htl : runPieces ev tl with
        | error e => rw [htl] at h; cases h
        | ok p =>
          obtain ⟨o, fs⟩ := p
          rw [htl] at h
          simp only [Except.ok.injEq, Prod.mk.injEq] at h
          obtain ⟨hout, hflags⟩ := h
          subst hflags
          constructor
          · intro hany
            simp only [List.any_cons, Bool.or_eq_true, id] at hany
            rcases hany with hv | hrest
            · exact ⟨inner, by simp, v, hev, hv⟩
            · obtain ⟨e, he, hw⟩ := (ih o fs htl).mp hrest
              exact ⟨e, by simp [he], hw⟩
          · rintro ⟨e, he, w, hw, hflag⟩
            simp only [List.any_cons, Bool.or_eq_true, id]
            simp only [List.mem_cons] at he
            rcases he with he | he
            · cases he
              rw [hev] at hw
              cases hw
              exact Or.inl hflag
            · exact Or.inr ((ih o fs htl).mpr ⟨e, he, w, hw, hflag⟩)

theorem resolveLoop_unmatched (ev : Evaluator) (ovr : GoMap) (hasData : Bool)
    (dk mode entry : String) (rest : List String) (base : GoMap) (k : String)
    (h : applyFactsString ev entry = .ok (k, false)) :
    resolveLoop ev ovr hasData dk mode (entry :: rest) base
      = resolveLoop ev ovr hasData dk mode rest base := by
  simp [resolveLoop, h]

theorem resolveLoop_datakey_skip (ev : Evaluator) (ovr : GoMap)
    (dk mode entry : String) (rest : List String) (base : GoMap)
    (h : applyFactsString ev entry = .ok (dk, true)) :
    resolveLoop ev ovr true dk mode (entry :: rest) base
      = resolveLoop ev ovr true dk mode rest base := by
  simp [resolveLoop, h]

theorem resolveLoop_no_override (ev : Evaluator) (ovr : GoMap) (hasData : Bool)
    (dk mode entry : String) (rest : List String) (base : GoMap) (k : String)
    (h : applyFactsString ev entry = .ok (k, true))
    (hnd : ¬(k = dk ∧ hasData = true))
    (hov : ∀ c, mapGet ovr k ≠ some (.map c)) :
    resolveLoop ev ovr hasData dk mode (entry :: rest) base
      = resolveLoop ev ovr hasData dk mode rest base := by
  simp only [resolveLoop, h]
  rw [if_neg (by simp), if_neg hnd]

theorem resolveLoop_deep_step (ev : Evaluator) (ovr : GoMap) (hasData : Bool)
    (dk entry : String) (rest : List String) (base : GoMap) (k : String)
    (cand candExp : GoMap)
    (h : applyFactsString ev entry = .ok (k, true))
    (hnd : ¬(k = dk ∧ hasData = true))
    (hov : mapGet ovr k = some (.map cand))
    (hexp : expandFields ev (cloneMap cand) = .ok candExp) :
    resolveLoop ev ovr hasData dk "deep" (entry :: rest) base
      = resolveLoop ev ovr hasData dk "deep" rest (deepMerge base candExp) := by
  simp only [resolveLoop, h]
  rw [if_neg (by simp), if_neg hnd, hov]
  simp [hexp]

theorem resolveLoop_first_hit (ev : Evaluator) (ovr : GoMap) (hasData : Bool)
    (dk entry : String) (rest : List String) (base : GoMap) (k : String)
    (cand candExp : GoMap)
    (h : applyFactsString ev entry = .ok (k, true))
    (hnd : ¬(k = dk ∧ hasData = true))
    (hov : mapGet ovr k = some (.map cand))
    (hexp : expandFields ev (cloneMap cand) = .ok candExp) :
    resolveLoop ev ovr hasData dk "first" (entry :: rest) base
      = .ok (shallowMerge base candExp) := by
  simp only [resolveLoop, h]
  rw [if_neg (by simp), if_neg hnd, hov]
  simp [hexp]

theorem resolveLoop_bad_mode (ev : Evaluator) (ovr : GoMap) (hasData : Bool)
    (dk mode entry : String) (rest : List String) (base : GoMap) (k : String)
    (cand candExp : GoMap)
    (h : applyFactsString ev entry = .ok (k, true))
    (hnd : ¬(k = dk ∧ hasData = true))
    (hov : mapGet ovr k = some (.map cand))
    (hexp : expandFields ev (cloneMap cand) = .ok candExp)
    (h1 : mode ≠ "deep") (h2 : mode ≠ "first") :
    resolveLoop ev ovr hasData dk mode (entry :: rest) base
      = .err (.mergeMode mode) := by
  simp only [resolveLoop, h]
  rw [if_neg (by simp), if_neg hnd, hov]
  simp [hexp, h1, h2]

/-- An order entry that the loop passes over without changing the
accumulator or failing: its expansion reports unmatched, or its resolved
key is the data alias while base data is present, or `overrides` holds no
map fragment under its resolved key. -/
def entrySkips (ev : Evaluator) (ovr : GoMap) (hasData : Bool) (dk : String)
    (entry : String) : Prop :=
  ∃ k m, applyFactsString ev entry = .ok (k, m) ∧
    (m = false ∨ (k = dk ∧ hasData = true) ∨ ∀ c, mapGet ovr k ≠ some (.map c))

theorem resolveLoop_skip (ev : Evaluator) (ovr : GoMap) (hasData : Bool)
    (dk mode entry : String) (rest : List String) (base : GoMap)
    (h : entrySkips ev ovr hasData dk entry) :
    resolveLoop ev ovr hasData dk mode (entry :: rest) base
      = resolveLoop ev ovr hasData dk mode rest base := by
  obtain ⟨k, m, hA, hcase⟩ := h
  rcases hcase with hm | hd | hov
  · subst hm
    exact resolveLoop_unmatched ev ovr hasData dk mode entry rest base k hA
  · cases m with
    | false => exact resolveLoop_unmatched ev ovr hasData dk mode entry rest base k hA
    | true =>
      obtain ⟨hk, hdata⟩ := hd
      subst hdata
      rw [hk] at hA
      exact resolveLoop_datakey_skip ev ovr dk mode entry rest base hA
  · cases m with
    | false => exact resolveLoop_unmatched ev ovr hasData dk mode entry rest base k hA
    | true =>
      by_cases hnd : k = dk ∧ hasData = true
      · obtain ⟨hk, hdata⟩ := hnd
        subst hdata
        rw [hk] at hA
        exact resolveLoop_datakey_skip ev ovr dk mode entry rest base hA
      · exact resolveLoop_no_override ev ovr hasData dk mode entry rest base k hA hnd hov

theorem resolveLoop_skip_prefix (ev : Evaluator) (ovr : GoMap) (hasData : Bool)
    (dk mode : String) :
    ∀ (pre rest : List String) (base : GoMap),
      (∀ e ∈ pre, entrySkips ev ovr hasData dk e) →
      resolveLoop ev ovr hasData dk mode (pre ++ rest) base
        = resolveLoop ev ovr hasData dk mode rest base := by
  intro pre
  induction pre with
  | nil => intro rest base _; rfl
  | cons e tl ih =>
    intro rest base hall
    rw [List.cons_append,
      resolveLoop_skip ev ovr hasData dk mode e (tl ++ rest) base (hall e (by simp))]
    exact ih rest base fun x hx => hall x (by simp [hx])

theorem mem_exprsOf_iff (t e : String) :
    e ∈ exprsOf t ↔ Piece.expr e ∈ scan t.toList := by
  simp only [exprsOf, List.mem_filterMap]
  constructor
  · rintro ⟨p, hp, he⟩
    cases p with
    | lit s => simp at he
    | expr x =>
      simp only [Option.some.injEq] at he
      subst he
      exact hp
  · intro h
    exact ⟨.expr e, h, rfl⟩

theorem any_isExpr_iff (ps : List Piece) :
    ps.any Piece.isExpr = true ↔ ∃ e, Piece.expr e ∈ ps := by
  rw [List.any_eq_true]
  constructor
  · rintro ⟨p, hp, hx⟩
    cases p with
    | lit s => simp [Piece.isExpr] at hx
    | expr x => exact ⟨x, hp⟩
  · rintro ⟨e, he⟩
    exact ⟨.expr e, he, rfl⟩

theorem exprsOf_ne_nil_iff (t : String) :
    exprsOf t ≠ [] ↔ (scan t.toList).any Piece.isExpr = true := by
  rw [any_isExpr_iff]
  constructor
  · intro h
    obtain ⟨e, he⟩ := List.exists_mem_of_ne_nil _ h
    exact ⟨e, (mem_exprsOf_iff t e).mp he⟩
  · rintro ⟨e, he⟩
    intro hnil
    have : e ∈ exprsOf t := (mem_exprsOf_iff t e).mpr he
    simp [hnil] at this

/-- The matched flag of string-mode expansion, characterized: with no span
it is exactly non-emptiness of the template, otherwise it is the existence
of a span whose evaluated value has a true `spanFlag`. -/
theorem applyFactsString_matched_iff (ev : Evaluator) (t out : String) (m : Bool)
    (h : applyFactsString ev t = .ok (out, m)) :
    (m = true ↔
      (if exprsOf t = [] then t ≠ "" else
        ∃ e ∈ exprsOf t, ∃ v, ev e = .ok v ∧ spanFlag v = true)) := by
  simp only [applyFactsString] at h
  by_cases hany : (scan t.toList).any Piece.isExpr = true
  · rw [if_pos hany] at h
    cases hrun : runPieces ev (scan t.toList) with
    | error e => rw [hrun] at h; cases h
    | ok p =>
      obtain ⟨o, fs⟩ := p
      rw [hrun] at h
      simp only [Except.ok.injEq, Prod.mk.injEq] at h
      obtain ⟨ho, hm⟩ := h
      subst hm
      rw [if_neg ((exprsOf_ne_nil_iff t).mpr hany)]
      rw [runPieces_flags ev _ o fs hrun]
      constructor
      · rintro ⟨e, he, hv⟩
        exact ⟨e, (mem_exprsOf_iff t e).mpr he, hv⟩
      · rintro ⟨e, he, hv⟩
        exact ⟨e, (mem_exprsOf_iff t e).mp he, hv⟩
  · rw [if_neg hany] at h
    simp only [Except.ok.injEq, Prod.mk.injEq] at h
    obtain ⟨ho, hm⟩ := h
    subst hm
    have hnil : exprsOf t = [] := by
      by_contra hne
      exact hany ((exprsOf_ne_nil_iff t).mp hne)
    rw [if_pos hnil]
    simp [bne_iff_ne]

theorem resolveLoop_expand_error (ev : Evaluator) (ovr : GoMap) (hasData : Bool)
    (dk mode entry : String) (rest : List String) (base : GoMap) (k : String)
    (cand : GoMap) (e : String)
    (h : applyFactsString ev entry = .ok (k, true))
    (hnd : ¬(k = dk ∧ hasData = true))
    (hov : mapGet ovr k = some (.map cand))
    (hexp : expandFields ev (cloneMap cand) = .error e) :
    resolveLoop ev ovr hasData dk mode (entry :: rest) base
      = .err (.evalErr e) := by
  simp only [resolveLoop, h]
  rw [if_neg (by simp), if_neg hnd, hov]
  simp [hexp]

/-- Under a merge mode other than `deep` and `first`, the loop can only
return the untouched accumulator, the unsupported-merge-mode error, or an
evaluation error from expanding an entry or fragment; it never merges. -/
theorem resolveLoop_invalid_mode (ev : Evaluator) (ovr : GoMap) (hasData : Bool)
    (dk mode : String) (h1 : mode ≠ "deep") (h2 : mode ≠ "first") :
    ∀ (entries : List String) (base : GoMap),
      resolveLoop ev ovr hasData dk mode entries base = .ok base
        ∨ resolveLoop ev ovr hasData dk mode entries base = .err (.mergeMode mode)
        ∨ ∃ s, resolveLoop ev ovr hasData dk mode entries base = .err (.evalErr s) := by
  intro entries
  induction entries with
  | nil => intro base; left; rfl
  | cons entry rest ih =>
    intro base
    cases hA : applyFactsString ev entry with
    | error e =>
      right; right
      exact ⟨e, by simp [resolveLoop, hA]⟩
    | ok p =>
      obtain ⟨k, m⟩ := p
      cases m with
      | false =>
        rw [resolveLoop_unmatched ev ovr hasData dk mode entry rest base k hA]
        exact ih base
      | true =>
        by_cases hnd : k = dk ∧ hasData = true
        · obtain ⟨hk, hdata⟩ := hnd
          subst hdata
          rw [hk] at hA
          rw [resolveLoop_datakey_skip ev ovr dk mode entry rest base hA]
          exact ih base
        · by_cases hex : ∃ c, mapGet ovr k = some (.map c)
          · obtain ⟨cand, hov⟩ := hex
            cases hexp : expandFields ev (cloneMap cand) with
            | error e =>
              right; right
              exact ⟨e, resolveLoop_expand_error ev ovr hasData dk mode entry rest base k cand e hA hnd hov hexp⟩
            | ok candExp =>
              right; left
              exact resolveLoop_bad_mode ev ovr hasData dk mode entry rest base k cand candExp hA hnd hov hexp h1 h2
          · push_neg at hex
            rw [resolveLoop_no_override ev ovr hasData dk mode entry rest base k hA hnd hex]
            exact ih base

theorem resolveCore_loop (ev : Evaluator) (dk : String) (root ovr : GoMap)
    (hasData : Bool) (mode : String) (order : List String) (base : GoMap)
    (hprep : resolvePrep ev dk root = .ok (ovr, hasData, mode, order, base)) :
    resolveCore ev dk root = resolveLoop ev ovr hasData dk mode order base := by
  simp [resolveCore, hprep]

/-- C9: the claim says numeric normalization rewrites every whole-valued
float and every signed/unsigned integer of any width to the native int
exactly when its magnitude fits the native signed-integer range, leaving
out-of-range values and non-whole floats unchanged.  The code disagrees
twice, witnessed here: `int8 5` fits but passes through unconverted (the
combined `case int, int8, int16, int32` returns the original value), and
the whole float `2^63` — admitted by the guard because `float64(maxInt)`
rounds up to `2^63` — is converted to an int even though its magnitude
exceeds `maxInt`.  The conversions the claim predicts for `10.0`, an
in-range `int64` and an out-of-range `uint64` do hold. -/
theorem normalization_c9_eval :
    normalizeNumericValues (GoValue.int8 5) = GoValue.int8 5
    ∧ normalizeNumericValues (GoValue.int8 5) ≠ GoValue.int 5
    ∧ normalizeNumericValues (GoValue.float ((2 : ℚ) ^ 63)) = GoValue.int (2 ^ 63)
    ∧ maxInt < 2 ^ 63
    ∧ normalizeNumericValues (GoValue.float 10) = GoValue.int 10
    ∧ normalizeNumericValues (GoValue.int64 20) = GoValue.int 20
    ∧ normalizeNumericValues (GoValue.uint64 (2 ^ 64 - 1)) = GoValue.uint64 (2 ^ 64 - 1) := by
  refine ⟨rfl, by simp [normalizeNumericValues], ?_, by norm_num [maxInt], ?_, ?_, ?_⟩
  · rw [show normalizeNumericValues (GoValue.float ((2 : ℚ) ^ 63))
      = if ((2 : ℚ) ^ 63).den = 1 ∧ minIntF ≤ (2 : ℚ) ^ 63 ∧ (2 : ℚ) ^ 63 ≤ maxIntF
        then GoValue.int ((2 : ℚ) ^ 63).num else GoValue.float ((2 : ℚ) ^ 63) from by
          simp [normalizeNumericValues]]
    rw [if_pos ⟨by norm_num, by norm_num [minIntF], by norm_num [maxIntF]⟩]
    norm_num
  · rw [show normalizeNumericValues (GoValue.float 10)
      = if (10 : ℚ).den = 1 ∧ minIntF ≤ (10 : ℚ) ∧ (10 : ℚ) ≤ maxIntF
        then GoValue.int (10 : ℚ).num else GoValue.float 10 from by
          simp [normalizeNumericValues]]
    rw [if_pos ⟨by norm_num, by norm_num [minIntF], by norm_num [maxIntF]⟩]
    norm_num
  · rw [show normalizeNumericValues (GoValue.int64 20)
      = if minInt ≤ (20 : Int) ∧ (20 : Int) ≤ maxInt
        then GoValue.int 20 else GoValue.int64 20 from by simp [normalizeNumericValues]]
    rw [if_pos ⟨by norm_num [minInt, maxInt], by norm_num [maxInt]⟩]
  · rw [show normalizeNumericValues (GoValue.uint64 (2 ^ 64 - 1))
      = if ((2 ^ 64 - 1 : Nat) : Int) ≤ maxInt
        then GoValue.int ((2 ^ 64 - 1 : Nat) : Int) else GoValue.uint64 (2 ^ 64 - 1) from by
          simp [normalizeNumericValues]]
    rw [if_neg (by norm_num [maxInt])]

/-- C10: whenever the top-level `overrides` key is present but its value is
not a string-keyed map, `Resolve` panics on the unchecked type assertion
`root["overrides"].(map[string]any)` before any error branch could run, so
such documents never resolve normally. -/
theorem resolve_c10_overrides_panic (ev : Evaluator) (root : GoMap) (v : GoValue)
    (hpresent : mapGet root "overrides" = some v)
    (hnotmap : ∀ m, v ≠ GoValue.map m) :
    Resolve ev root = .panicked "interface conversion: overrides is not map[string]any" := by
  have hnorm : normalizeNumericValues (GoValue.map root) = GoValue.map (normFields root) := by
    simp [normalizeNumericValues]
  have hget : mapGet (normFields root) "overrides" = some (normalizeNumericValues v) := by
    rw [normFields_get, hpresent]
    rfl
  have hchk : checkOverrides (normFields root) = none := by
    unfold checkOverrides
    rw [hget]
    have hnm := normalizeNumericValues_not_map v hnotmap
    cases hv : normalizeNumericValues v <;> simp_all
  simp [Resolve, resolveCore, resolvePrep, hnorm, hchk]

/-- Witness for the C10 theorem at a concrete document. -/
theorem resolve_c10_overrides_panic_witness :
    mapGet [("overrides", GoValue.str "x")] "overrides" = some (GoValue.str "x")
    ∧ (∀ m, GoValue.str "x" ≠ GoValue.map m)
    ∧ Resolve (fun _ => .error "unused") [("overrides", GoValue.str "x")]
        = .panicked "interface conversion: overrides is not map[string]any" :=
  ⟨rfl, by simp, resolve_c10_overrides_panic (fun _ => .error "unused") _ _ rfl (by simp)⟩

/-- C5: the `lookup` host function bound by `genExprEnv`.  A path that does
not resolve in the snapshot yields the explicit default when supplied and
the empty string otherwise (never an error; the function is total by
construction).  A path that resolves to a number yields a floating-point
result exactly when the source literal's text contains a decimal point and
an integer result exactly when it does not.  Every other resolved value
passes through as `res.Value()`. -/
theorem lookup_c5_semantics (snapshot : Json) (path : String) (args : List GoValue) :
    (jsonGet snapshot (pathSegs path) = none →
      lookupFn snapshot path args =
        (match args with
         | a :: _ => a
         | [] => GoValue.str ""))
    ∧ (∀ raw, jsonGet snapshot (pathSegs path) = some (.num raw) →
        (((∃ q, lookupFn snapshot path args = GoValue.float q) ↔ containsDot raw = true)
          ∧ ((∃ n, lookupFn snapshot path args = GoValue.int n) ↔ containsDot raw = false)))
    ∧ (∀ res, jsonGet snapshot (pathSegs path) = some res →
        (∀ raw, res ≠ Json.num raw) →
        lookupFn snapshot path args = jsonToGo res) := by
  refine ⟨?_, ?_, ?_⟩
  · intro h
    simp [lookupFn, h]
  · intro raw h
    cases hdot : containsDot raw with
    | true =>
      constructor
      · simp [lookupFn, h, hdot]
      · simp [lookupFn, h, hdot]
    | false =>
      constructor
      · simp [lookupFn, h, hdot]
      · simp [lookupFn, h, hdot]
  · intro res h hnum
    cases res <;> simp [lookupFn, h, jsonToGo]
    case num raw => exact absurd rfl (hnum raw)

/-- A sample facts snapshot for the C5 witness. -/
def sampleSnap : Json :=
  Json.obj [("a", Json.obj [("b", Json.num "1.5")]), ("c", Json.num "7")]

/-- Witness for the C5 theorem: a snapshot with a nested float literal, an
integer literal, and a missing path with an explicit default. -/
theorem lookup_c5_semantics_witness :
    jsonGet sampleSnap (pathSegs "a.b") = some (Json.num "1.5")
    ∧ (∃ q, lookupFn sampleSnap "a.b" [] = GoValue.float q)
    ∧ (∃ n, lookupFn sampleSnap "c" [] = GoValue.int n)
    ∧ jsonGet sampleSnap (pathSegs "missing") = none
    ∧ lookupFn sampleSnap "missing" [GoValue.int 7] = GoValue.int 7 := by
  refine ⟨rfl, ?_, ?_, rfl, ?_⟩
  · exact ((lookup_c5_semantics sampleSnap "a.b" []).2.1 "1.5" rfl).1.mpr rfl
  · exact ((lookup_c5_semantics sampleSnap "c" []).2.1 "7" rfl).2.mpr rfl
  · exact (lookup_c5_semantics sampleSnap "missing" [GoValue.int 7]).1 rfl

/-- C3: string-mode expansion of a hierarchy entry reports matched exactly
when some span's value is a non-empty string or a non-null, non-string
value (with no spans, exactly when the entry text is non-empty); the loop
passes over an unmatched entry without error and without consulting
`overrides` (the resolved text is not used as a literal override key), and
a matched entry does proceed to the override lookup and, in deep mode,
folds its fragment. -/
theorem applyfacts_c3_matched_skip (ev : Evaluator) (t : String) :
    (∀ out m, applyFactsString ev t = .ok (out, m) →
      (m = true ↔
        (if exprsOf t = [] then t ≠ "" else
          ∃ e ∈ exprsOf t, ∃ v, ev e = .ok v ∧ claimMatched v)))
    ∧ (∀ (ovr : GoMap) (hasData : Bool) (dk mode : String) (rest : List String)
        (base : GoMap) (k : String),
        applyFactsString ev t = .ok (k, false) →
        resolveLoop ev ovr hasData dk mode (t :: rest) base
          = resolveLoop ev ovr hasData dk mode rest base)
    ∧ (∀ (ovr : GoMap) (hasData : Bool) (dk : String) (rest : List String)
        (base : GoMap) (k : String) (cand candExp : GoMap),
        applyFactsString ev t = .ok (k, true) →
        ¬(k = dk ∧ hasData = true) →
        mapGet ovr k = some (.map cand) →
        expandFields ev (cloneMap cand) = .ok candExp →
        resolveLoop ev ovr hasData dk "deep" (t :: rest) base
          = resolveLoop ev ovr hasData dk "deep" rest (deepMerge base candExp)) := by
  refine ⟨?_, ?_, ?_⟩
  · intro out m h
    rw [applyFactsString_matched_iff ev t out m h]
    by_cases hnil : exprsOf t = []
    · rw [if_pos hnil, if_pos hnil]
    · rw [if_neg hnil, if_neg hnil]
      constructor
      · rintro ⟨e, he, v, hv, hflag⟩
        exact ⟨e, he, v, hv, (spanFlag_iff_claimMatched v).mp hflag⟩
      · rintro ⟨e, he, v, hv, hcm⟩
        exact ⟨e, he, v, hv, (spanFlag_iff_claimMatched v).mpr hcm⟩
  · intro ovr hasData dk mode rest base k h
    exact resolveLoop_unmatched ev ovr hasData dk mode t rest base k h
  · intro ovr hasData dk rest base k cand candExp h hnd hov hexp
    exact resolveLoop_deep_step ev ovr hasData dk t rest base k cand candExp h hnd hov hexp

/-- The evaluator used by the loop-level witnesses: `r` is a bound fact,
`nope` is an absent fact (the engine returns nil), anything else fails. -/
def evW : Evaluator := fun e =>
  if e = "r" then .ok (.str "web")
  else if e = "nope" then .ok .null
  else .error "eval error"

/-- Witness for the C3 theorem: `env:\x7b\x7b nope \x7d\x7d` expands
unmatched and is skipped even though `overrides` has the literal entry text
as a key, while `role:\x7b\x7b r \x7d\x7d` expands matched and folds its
fragment. -/
theorem applyfacts_c3_matched_skip_witness :
    applyFactsString evW "env:\x7b\x7b nope \x7d\x7d" = .ok ("env:<nil>", false)
    ∧ resolveLoop evW [("env:\x7b\x7b nope \x7d\x7d", GoValue.map [("x", GoValue.int 9)])]
        false "data" "deep" ["env:\x7b\x7b nope \x7d\x7d"] []
      = resolveLoop evW [("env:\x7b\x7b nope \x7d\x7d", GoValue.map [("x", GoValue.int 9)])]
        false "data" "deep" [] []
    ∧ applyFactsString evW "role:\x7b\x7b r \x7d\x7d" = .ok ("role:web", true)
    ∧ resolveLoop evW [("role:web", GoValue.map [("b", GoValue.int 2)])]
        false "data" "deep" ["role:\x7b\x7b r \x7d\x7d"] [("a", GoValue.int 1)]
      = resolveLoop evW [("role:web", GoValue.map [("b", GoValue.int 2)])]
        false "data" "deep" []
        (deepMerge [("a", GoValue.int 1)] [("b", GoValue.int 2)]) := by
  refine ⟨rfl, ?_, rfl, ?_⟩
  · exact (applyfacts_c3_matched_skip evW "env:\x7b\x7b nope \x7d\x7d").2.1
      _ false "data" "deep" [] [] "env:<nil>" rfl
  · exact (applyfacts_c3_matched_skip evW "role:\x7b\x7b r \x7d\x7d").2.2
      _ false "data" [] [("a", GoValue.int 1)] "role:web"
      [("b", GoValue.int 2)] [("b", GoValue.int 2)] rfl (by simp) rfl
      (by simp [cloneMap, expandFields, expandValue])

/-- The C4 claim's trigger condition, in the spec's words: after trimming,
the string is exactly one `\x7b\x7b ... \x7d\x7d` span with no surrounding
literal text (the scan of the trimmed string is one span with empty
literal text on both sides). -/
def specWholeSpan (t : String) : Bool :=
  match scan (goTrimSpace t).toList with
  | [Piece.lit l1, Piece.expr _, Piece.lit l2] => l1 == "" && l2 == ""
  | _ => false

/-- The evaluator for the C4 counterexample: expression `a` evaluates to
the integer 1. -/
def evA : Evaluator := fun e => if e = "a" then .ok (.int 1) else .error "eval error"

/-- C4 counterexample: `\x7b\x7b a \x7d\x7d\x7d\x7d` is not a whole-string
span — it has the surrounding literal text `\x7d\x7d` — yet typed-mode
expansion returns the evaluator's typed result and drops that text, instead
of falling back to string mode (whose result would be the string `1\x7d\x7d`).
The source's guard only checks that there is one regex match and that the
trimmed template starts with `\x7b\x7b` and ends with `\x7d\x7d`, which
this template satisfies. -/
theorem applyfactstyped_c4_counterexample :
    specWholeSpan "\x7b\x7b a \x7d\x7d\x7d\x7d" = false
    ∧ applyFactsTyped evA "\x7b\x7b a \x7d\x7d\x7d\x7d" = .ok (GoValue.int 1)
    ∧ applyFactsString evA "\x7b\x7b a \x7d\x7d\x7d\x7d" = .ok ("1\x7d\x7d", true)
    ∧ applyFactsTyped evA "\x7b\x7b a \x7d\x7d\x7d\x7d" ≠ .ok (GoValue.str "1\x7d\x7d") := by
  refine ⟨rfl, rfl, rfl, ?_⟩
  intro h
  rw [show applyFactsTyped evA "\x7b\x7b a \x7d\x7d\x7d\x7d" = .ok (GoValue.int 1) from rfl] at h
  simp at h

/-- C4 as amended: typed-mode expansion returns the evaluator's result with
its type preserved when the template contains exactly one span and the
trimmed template merely starts with `\x7b\x7b` and ends with `\x7d\x7d`
(a strictly weaker condition than "no surrounding literal text"); with no
span the template is returned as a string; in every other case it falls
back to string mode and wraps the resulting text as a string.  The
recursive structural expander applies typed mode to every string leaf,
recurses through maps and slices, and passes non-string scalars through
unchanged. -/
theorem applyfactstyped_c4_amended (ev : Evaluator) (t : String) :
    (exprsOf t = [] → applyFactsTyped ev t = .ok (.str t))
    ∧ (∀ inner, exprsOf t = [inner] →
        (goHasPrefix (goTrimSpace t) "\x7b\x7b" && goHasSuffix (goTrimSpace t) "\x7d\x7d") = true →
        applyFactsTyped ev t = ev inner)
    ∧ (∀ inner, exprsOf t = [inner] →
        (goHasPrefix (goTrimSpace t) "\x7b\x7b" && goHasSuffix (goTrimSpace t) "\x7d\x7d") = false →
        applyFactsTyped ev t =
          (match applyFactsString ev t with
           | .ok (out, _) => .ok (.str out)
           | .error e => .error e))
    ∧ (∀ i1 i2 rest, exprsOf t = i1 :: i2 :: rest →
        applyFactsTyped ev t =
          (match applyFactsString ev t with
           | .ok (out, _) => .ok (.str out)
           | .error e => .error e))
    ∧ (expandValue ev (.str t) = applyFactsTyped ev t)
    ∧ (expandValue ev .null = .ok .null)
    ∧ (∀ b, expandValue ev (.bool b) = .ok (.bool b))
    ∧ (∀ n, expandValue ev (.int n) = .ok (.int n))
    ∧ (∀ q, expandValue ev (.float q) = .ok (.float q))
    ∧ (∀ m m', expandFields ev m = .ok m' → expandValue ev (.map m) = .ok (.map m'))
    ∧ (∀ xs xs', expandItems ev xs = .ok xs' → expandValue ev (.list xs) = .ok (.list xs')) := by
  refine ⟨?_, ?_, ?_, ?_, ?_, ?_, ?_, ?_, ?_, ?_, ?_⟩
  · intro h
    simp [applyFactsTyped, h]
  · intro inner h hps
    simp [applyFactsTyped, h, hps]
  · intro inner h hps
    simp only [applyFactsTyped, h, hps]
    rw [if_neg (by simp [hps])]
  · intro i1 i2 rest h
    simp [applyFactsTyped, h]
  · simp [expandValue]
  · simp [expandValue]
  · intro b; simp [expandValue]
  · intro n; simp [expandValue]
  · intro q; simp [expandValue]
  · intro m m' h; simp [expandValue, h]
  · intro xs xs' h; simp [expandValue, h]

/-- Witness for the amended C4 theorem: a whole-string span preserves the
evaluator's integer result, and an integer leaf passes through the
structural expander unchanged. -/
theorem applyfactstyped_c4_amended_witness :
    exprsOf "\x7b\x7b a \x7d\x7d" = ["a"]
    ∧ applyFactsTyped evA "\x7b\x7b a \x7d\x7d" = .ok (GoValue.int 1)
    ∧ expandValue evA (GoValue.int 42) = .ok (GoValue.int 42) := by
  refine ⟨rfl, ?_, ?_⟩
  · rw [(applyfactstyped_c4_amended evA "\x7b\x7b a \x7d\x7d").2.1 "a" rfl rfl]
    rfl
  · exact (applyfactstyped_c4_amended evA "").2.2.2.2.2.2.2.1 42

/-- The evaluator for the data-alias counterexamples; the documents involved
contain no spans, so it is never consulted. -/
def evU : Evaluator := fun _ => .error "unused"

/-- The deep-mode data-alias counterexample document: the order entry
`data` expands matched, and `overrides` holds a map fragment under the key
`data`, yet the loop skips the entry because base data is present. -/
def docDeepAlias : GoMap :=
  [("hierarchy", GoValue.map [("order", GoValue.list [GoValue.str "data"]),
      ("merge", GoValue.str "deep")]),
   ("data", GoValue.map [("a", GoValue.int 1)]),
   ("overrides", GoValue.map [("data", GoValue.map [("b", GoValue.int 2)])])]

/-- C1 counterexample: in deep mode, the entry `data` matches (non-empty,
no spans) and names the map fragment `overrides["data"]`, but `Resolve`
does not fold that fragment: the result is the bare base data, with no `b`
key.  The claim's "every entry that matches and names an override
fragment" overlooks the reserved data-alias skip. -/
theorem resolve_c1_counterexample :
    applyFactsString evU "data" = .ok ("data", true)
    ∧ mapGet [("data", GoValue.map [("b", GoValue.int 2)])] "data"
        = some (GoValue.map [("b", GoValue.int 2)])
    ∧ Resolve evU docDeepAlias = .ok [("a", GoValue.int 1)]
    ∧ mapGet [("a", GoValue.int 1)] "b" = none := by
  refine ⟨rfl, rfl, ?_, rfl⟩
  have hprep : resolvePrep evU "data" docDeepAlias
      = .ok ([("data", GoValue.map [("b", GoValue.int 2)])], true, "deep",
          ["data"], [("a", GoValue.int 1)]) := by
    simp [resolvePrep, docDeepAlias, normalizeNumericValues, normFields, checkOverrides,
      mapGet, parseHierarchy, parseOrder, seedBase, hasDataSection, goToLower, cloneMap,
      expandFields, expandValue]
  rw [show Resolve evU docDeepAlias = resolveCore evU "data" docDeepAlias from rfl,
    resolveCore_loop evU "data" docDeepAlias _ _ _ _ _ hprep,
    resolveLoop_datakey_skip evU _ "data" "deep" "data" [] [("a", GoValue.int 1)] rfl]
  rfl

/-- C1 as amended: in deep mode, every order entry that matches, does not
resolve to the data alias while base data is present, and names a map
fragment in `overrides` whose expansion succeeds, is folded into the
accumulator by `deepMerge`, and iteration continues with the next entry.
`deepMerge` is key-wise: a key the fragment does not define keeps the
accumulator's value, and a key it does define gets `mergeVal` of the two
values — recursive merge for map-with-map, concatenation (existing
elements first, incoming appended in order, no deduplication) for
slice-with-slice, and the incoming value in every other combination. -/
theorem resolve_c1_deep_amended (ev : Evaluator) (ovr : GoMap) (hasData : Bool)
    (entry k : String) (rest : List String) (base cand candExp : GoMap)
    (hA : applyFactsString ev entry = .ok (k, true))
    (hnd : ¬(k = "data" ∧ hasData = true))
    (hov : mapGet ovr k = some (.map cand))
    (hexp : expandFields ev (cloneMap cand) = .ok candExp) :
    resolveLoop ev ovr hasData "data" "deep" (entry :: rest) base
      = resolveLoop ev ovr hasData "data" "deep" rest (deepMerge base candExp)
    ∧ (∀ (t s : GoMap) (key : String), (mapKeys s).Nodup →
        mapGet (deepMerge t s) key =
          match mapGet s key with
          | none => mapGet t key
          | some v => some (mergeVal (mapGet t key) v))
    ∧ (∀ em im, mergeVal (some (GoValue.map em)) (GoValue.map im)
        = GoValue.map (deepMerge em im))
    ∧ (∀ el il, mergeVal (some (GoValue.list el)) (GoValue.list il)
        = GoValue.list (el.map cloneValue ++ il))
    ∧ (∀ (o : Option GoValue) (v : GoValue),
        (∀ em im, ¬(o = some (GoValue.map em) ∧ v = GoValue.map im)) →
        (∀ el il, ¬(o = some (GoValue.list el) ∧ v = GoValue.list il)) →
        mergeVal o v = cloneValue v) := by
  refine ⟨?_, ?_, ?_, ?_, ?_⟩
  · exact resolveLoop_deep_step ev ovr hasData "data" entry rest base k cand candExp hA hnd hov hexp
  · intro t s key hnd'
    exact deepMerge_get s t key hnd'
  · intro em im
    simp [mergeVal]
  · intro el il
    simp [mergeVal]
  · intro o v h1 h2
    unfold mergeVal
    split
    · exact absurd ⟨rfl, rfl⟩ (h1 _ _)
    · exact absurd ⟨rfl, rfl⟩ (h2 _ _)
    · rfl

/-- Witness for the amended C1 theorem: one deep step folds the fragment,
and the key-wise semantics give scalar replacement and list concatenation
on concrete maps. -/
theorem resolve_c1_deep_amended_witness :
    resolveLoop evW [("role:web", GoValue.map [("lvl", GoValue.str "WARN")])]
        true "data" "deep" ["role:\x7b\x7b r \x7d\x7d"] [("lvl", GoValue.str "INFO")]
      = resolveLoop evW [("role:web", GoValue.map [("lvl", GoValue.str "WARN")])]
        true "data" "deep" []
        (deepMerge [("lvl", GoValue.str "INFO")] [("lvl", GoValue.str "WARN")])
    ∧ mapGet (deepMerge [("lvl", GoValue.str "INFO")] [("lvl", GoValue.str "WARN")]) "lvl"
        = some (GoValue.str "WARN")
    ∧ mapGet (deepMerge [("xs", GoValue.list [GoValue.int 1])]
        [("xs", GoValue.list [GoValue.int 2])]) "xs"
        = some (GoValue.list [GoValue.int 1, GoValue.int 2]) := by
  obtain ⟨hstep, hget, hmm, hll, hrepl⟩ :=
    resolve_c1_deep_amended evW [("role:web", GoValue.map [("lvl", GoValue.str "WARN")])]
      true "role:\x7b\x7b r \x7d\x7d" "role:web" [] [("lvl", GoValue.str "INFO")]
      [("lvl", GoValue.str "WARN")] [("lvl", GoValue.str "WARN")]
      rfl (by simp) rfl
      (by simp [cloneMap, expandFields, expandValue, applyFactsTyped, exprsOf, scan, scanF, findSub])
  refine ⟨hstep, ?_, ?_⟩
  · rw [hget [("lvl", GoValue.str "INFO")] [("lvl", GoValue.str "WARN")] "lvl" (by simp [mapKeys])]
    rw [show mapGet [("lvl", GoValue.str "WARN")] "lvl" = some (GoValue.str "WARN") from rfl,
      show mapGet [("lvl", GoValue.str "INFO")] "lvl" = some (GoValue.str "INFO") from rfl]
    dsimp only
    rw [hrepl (some (GoValue.str "INFO")) (GoValue.str "WARN") (by simp) (by simp)]
    rfl
  · rw [hget [("xs", GoValue.list [GoValue.int 1])] [("xs", GoValue.list [GoValue.int 2])] "xs" (by simp [mapKeys])]
    rw [show mapGet [("xs", GoValue.list [GoValue.int 2])] "xs"
        = some (GoValue.list [GoValue.int 2]) from rfl,
      show mapGet [("xs", GoValue.list [GoValue.int 1])] "xs"
        = some (GoValue.list [GoValue.int 1]) from rfl]
    dsimp only
    rw [hll [GoValue.int 1] [GoValue.int 2]]
    rfl

/-- The first-mode data-alias counterexample document. -/
def docFirstAlias : GoMap :=
  [("hierarchy", GoValue.map [("order", GoValue.list [GoValue.str "data"]),
      ("merge", GoValue.str "first")]),
   ("data", GoValue.map [("a", GoValue.int 1)]),
   ("overrides", GoValue.map [("data", GoValue.map [("b", GoValue.int 2)])])]

/-- C2 counterexample: in first mode, the first (and only) order entry
`data` matches and its resolved key names the map fragment
`overrides["data"]`, yet `Resolve` does not return that fragment
shallow-merged over the accumulator — the entry is skipped as the data
alias and the bare base data is returned. -/
theorem resolve_c2_counterexample :
    applyFactsString evU "data" = .ok ("data", true)
    ∧ mapGet [("data", GoValue.map [("b", GoValue.int 2)])] "data"
        = some (GoValue.map [("b", GoValue.int 2)])
    ∧ Resolve evU docFirstAlias = .ok [("a", GoValue.int 1)]
    ∧ Resolve evU docFirstAlias
        ≠ .ok (shallowMerge [("a", GoValue.int 1)] [("b", GoValue.int 2)]) := by
  have hprep : resolvePrep evU "data" docFirstAlias
      = .ok ([("data", GoValue.map [("b", GoValue.int 2)])], true, "first",
          ["data"], [("a", GoValue.int 1)]) := by
    simp [resolvePrep, docFirstAlias, normalizeNumericValues, normFields, checkOverrides,
      mapGet, parseHierarchy, parseOrder, seedBase, hasDataSection, goToLower, cloneMap,
      expandFields, expandValue]
  have hres : Resolve evU docFirstAlias = .ok [("a", GoValue.int 1)] := by
    rw [show Resolve evU docFirstAlias = resolveCore evU "data" docFirstAlias from rfl,
      resolveCore_loop evU "data" docFirstAlias _ _ _ _ _ hprep,
      resolveLoop_datakey_skip evU _ "data" "first" "data" [] [("a", GoValue.int 1)] rfl]
    rfl
  refine ⟨rfl, rfl, hres, ?_⟩
  rw [hres, show shallowMerge [("a", GoValue.int 1)] [("b", GoValue.int 2)]
      = [("a", GoValue.int 1), ("b", GoValue.int 2)] from rfl]
  simp

/-- C2 as amended: in first mode, once every earlier order entry has been
passed over (unmatched, the data alias, or without a map fragment), the
first entry that matches, is not the data alias with base data present,
and names a map fragment whose expansion succeeds is terminal: `Resolve`
returns that expanded fragment shallow-merged over the accumulator, for
any continuation of the order — later entries are never consulted, even
ones whose expansion would fail.  The shallow merge is key-wise on the top
level only: the fragment's value where it defines a key, the accumulator's
otherwise. -/
theorem resolve_c2_first_amended (ev : Evaluator) (root ovr base : GoMap)
    (hasData : Bool) (pre rest : List String) (entry k : String)
    (cand candExp : GoMap)
    (hprep : resolvePrep ev "data" root
      = .ok (ovr, hasData, "first", pre ++ entry :: rest, base))
    (hpre : ∀ e ∈ pre, entrySkips ev ovr hasData "data" e)
    (hA : applyFactsString ev entry = .ok (k, true))
    (hnd : ¬(k = "data" ∧ hasData = true))
    (hov : mapGet ovr k = some (.map cand))
    (hexp : expandFields ev (cloneMap cand) = .ok candExp) :
    Resolve ev root = .ok (shallowMerge base candExp)
    ∧ (∀ (t s : GoMap) (key : String), (mapKeys s).Nodup →
        mapGet (shallowMerge t s) key =
          match mapGet s key with
          | none => mapGet t key
          | some v => some v) := by
  constructor
  · rw [show Resolve ev root = resolveCore ev "data" root from rfl,
      resolveCore_loop ev "data" root ovr hasData "first" _ base hprep,
      resolveLoop_skip_prefix ev ovr hasData "data" "first" pre (entry :: rest) base hpre]
    exact resolveLoop_first_hit ev ovr hasData "data" entry rest base k cand candExp hA hnd hov hexp
  · intro t s key h
    exact shallowMerge_get s t key h

/-- The first-mode witness document: an unmatched entry, then a matching
entry with an override, then an entry whose expansion would fail — which
must never be consulted. -/
def docFirstShort : GoMap :=
  [("hierarchy", GoValue.map [("order", GoValue.list
      [GoValue.str "\x7b\x7b nope \x7d\x7d", GoValue.str "role:\x7b\x7b r \x7d\x7d",
       GoValue.str "\x7b\x7b boom \x7d\x7d"]),
      ("merge", GoValue.str "first")]),
   ("data", GoValue.map [("a", GoValue.int 1)]),
   ("overrides", GoValue.map [("role:web", GoValue.map [("b", GoValue.int 2)])])]

/-- Witness for the amended C2 theorem on `docFirstShort`: the unmatched
first entry is skipped, the second entry is terminal, and the erroring
third entry is never consulted. -/
theorem resolve_c2_first_amended_witness :
    Resolve evW docFirstShort
      = .ok (shallowMerge [("a", GoValue.int 1)] [("b", GoValue.int 2)])
    ∧ mapGet (shallowMerge [("a", GoValue.int 1)] [("b", GoValue.int 2)]) "b"
        = some (GoValue.int 2)
    ∧ mapGet (shallowMerge [("a", GoValue.int 1)] [("b", GoValue.int 2)]) "a"
        = some (GoValue.int 1) := by
  have hprep : resolvePrep evW "data" docFirstShort
      = .ok ([("role:web", GoValue.map [("b", GoValue.int 2)])], true, "first",
          ["\x7b\x7b nope \x7d\x7d", "role:\x7b\x7b r \x7d\x7d", "\x7b\x7b boom \x7d\x7d"],
          [("a", GoValue.int 1)]) := by
    simp [resolvePrep, docFirstShort, normalizeNumericValues, normFields, checkOverrides,
      mapGet, parseHierarchy, parseOrder, seedBase, hasDataSection, goToLower, cloneMap,
      expandFields, expandValue]
  obtain ⟨hres, hget⟩ :=
    resolve_c2_first_amended evW docFirstShort
      [("role:web", GoValue.map [("b", GoValue.int 2)])] [("a", GoValue.int 1)]
      true ["\x7b\x7b nope \x7d\x7d"] ["\x7b\x7b boom \x7d\x7d"]
      "role:\x7b\x7b r \x7d\x7d" "role:web"
      [("b", GoValue.int 2)] [("b", GoValue.int 2)]
      hprep
      (by
        intro e he
        simp only [List.mem_singleton] at he
        subst he
        exact ⟨"<nil>", false, rfl, Or.inl rfl⟩)
      rfl (by simp) rfl
      (by simp [cloneMap, expandFields, expandValue, applyFactsTyped, exprsOf, scan, scanF, findSub])
  refine ⟨hres, ?_, ?_⟩
  · rw [hget [("a", GoValue.int 1)] [("b", GoValue.int 2)] "b" (by simp [mapKeys])]
    rfl
  · rw [hget [("a", GoValue.int 1)] [("b", GoValue.int 2)] "a" (by simp [mapKeys])]
    rfl

/-- The C6 counterexample document: an unsupported merge mode, but no order
entry ever reaches the merge switch. -/
def docBadMerge : GoMap :=
  [("hierarchy", GoValue.map [("order", GoValue.list []), ("merge", GoValue.str "bogus")]),
   ("data", GoValue.map [("a", GoValue.int 1)])]

/-- C6 counterexample: a document whose merge value, lowercased, is neither
`first` nor `deep` (and not empty) resolves without any error when no order
entry matches an override — the merge-mode check sits inside the loop's
candidate branch, so the unsupported value goes undetected and the base
data is returned. -/
theorem resolve_c6_counterexample :
    goToLower "bogus" ≠ "first"
    ∧ goToLower "bogus" ≠ "deep"
    ∧ goToLower "bogus" ≠ ""
    ∧ Resolve evU docBadMerge = .ok [("a", GoValue.int 1)]
    ∧ ∀ e, Resolve evU docBadMerge ≠ .err e := by
  have hprep : resolvePrep evU "data" docBadMerge
      = .ok ([], true, "bogus", [], [("a", GoValue.int 1)]) := by
    simp [resolvePrep, docBadMerge, normalizeNumericValues, normFields, checkOverrides,
      mapGet, parseHierarchy, parseOrder, seedBase, hasDataSection, goToLower, cloneMap,
      expandFields, expandValue]
  have hres : Resolve evU docBadMerge = .ok [("a", GoValue.int 1)] := by
    rw [show Resolve evU docBadMerge = resolveCore evU "data" docBadMerge from rfl,
      resolveCore_loop evU "data" docBadMerge _ _ _ _ _ hprep]
    rfl
  refine ⟨by simp [goToLower], by simp [goToLower], by simp [goToLower], hres, ?_⟩
  intro e h
  rw [hres] at h
  cases h

/-- C6 as amended: with a merge value that lowercases to something other
than `first`, `deep` or the empty string, `Resolve` returns the
merge-mode error naming the (lowercased) unsupported value as soon as some
order entry matches and names an override fragment whose expansion
succeeds; when no entry reaches the merge switch it instead returns the
seeded accumulator untouched (or an expansion error) — it never merges
under an unsupported mode, so no partial merge is ever returned. -/
theorem resolve_c6_mergemode_amended (ev : Evaluator) (root ovr base : GoMap)
    (hasData : Bool) (mode : String) (order : List String)
    (hprep : resolvePrep ev "data" root = .ok (ovr, hasData, mode, order, base))
    (h1 : mode ≠ "deep") (h2 : mode ≠ "first") :
    (Resolve ev root = .ok base
      ∨ Resolve ev root = .err (.mergeMode mode)
      ∨ ∃ s, Resolve ev root = .err (.evalErr s))
    ∧ (∀ (pre rest : List String) (entry k : String) (cand candExp : GoMap),
        order = pre ++ entry :: rest →
        (∀ e ∈ pre, entrySkips ev ovr hasData "data" e) →
        applyFactsString ev entry = .ok (k, true) →
        ¬(k = "data" ∧ hasData = true) →
        mapGet ovr k = some (.map cand) →
        expandFields ev (cloneMap cand) = .ok candExp →
        Resolve ev root = .err (.mergeMode mode)) := by
  have hcore : Resolve ev root = resolveLoop ev ovr hasData "data" mode order base := by
    rw [show Resolve ev root = resolveCore ev "data" root from rfl,
      resolveCore_loop ev "data" root ovr hasData mode order base hprep]
  constructor
  · rw [hcore]
    exact resolveLoop_invalid_mode ev ovr hasData "data" mode h1 h2 order base
  · intro pre rest entry k cand candExp horder hpre hA hnd hov hexp
    rw [hcore, horder,
      resolveLoop_skip_prefix ev ovr hasData "data" mode pre (entry :: rest) base hpre]
    exact resolveLoop_bad_mode ev ovr hasData "data" mode entry rest base k cand candExp
      hA hnd hov hexp h1 h2

/-- The C6 witness document: merge value `Bogus` and one matching entry. -/
def docBadMergeHit : GoMap :=
  [("hierarchy", GoValue.map [("order", GoValue.list [GoValue.str "role:\x7b\x7b r \x7d\x7d"]),
      ("merge", GoValue.str "Bogus")]),
   ("data", GoValue.map [("a", GoValue.int 1)]),
   ("overrides", GoValue.map [("role:web", GoValue.map [("b", GoValue.int 2)])])]

/-- Witness for the amended C6 theorem: `Bogus` lowercases to `bogus`, the
single entry matches its override, and `Resolve` fails with the merge-mode
error naming `bogus`. -/
theorem resolve_c6_mergemode_amended_witness :
    Resolve evW docBadMergeHit = .err (.mergeMode "bogus") := by
  have hprep : resolvePrep evW "data" docBadMergeHit
      = .ok ([("role:web", GoValue.map [("b", GoValue.int 2)])], true, "bogus",
          ["role:\x7b\x7b r \x7d\x7d"], [("a", GoValue.int 1)]) := by
    simp [resolvePrep, docBadMergeHit, normalizeNumericValues, normFields, checkOverrides,
      mapGet, parseHierarchy, parseOrder, seedBase, hasDataSection, goToLower, cloneMap,
      expandFields, expandValue]
  exact (resolve_c6_mergemode_amended evW docBadMergeHit
      [("role:web", GoValue.map [("b", GoValue.int 2)])] [("a", GoValue.int 1)]
      true "bogus" ["role:\x7b\x7b r \x7d\x7d"] hprep (by simp) (by simp)).2
    [] [] "role:\x7b\x7b r \x7d\x7d" "role:web"
    [("b", GoValue.int 2)] [("b", GoValue.int 2)]
    rfl (by intro e he; cases he) rfl (by simp) rfl
    (by simp [cloneMap, expandFields, expandValue, applyFactsTyped, exprsOf, scan, scanF, findSub])

/-- C7 (modelled from the spec, see `Options`): the options-bearing entry
point recognizes `dataKey` with default `"data"` — with `DefaultOptions`
it coincides with `Resolve` — the accumulator is seeded from the document
section under the configured key (cloned and expanded), and an order entry
whose resolved key equals the configured data key is skipped when that
base-data section is present. -/
theorem resolve_c7_options (ev : Evaluator) (opts : Options) (root : GoMap) :
    (ResolveOpts ev DefaultOptions root = Resolve ev root
      ∧ DefaultOptions.dataKey = "data")
    ∧ (∀ (d d' ovr : GoMap) (h : Hierarchy),
        mapGet (normFields root) opts.dataKey = some (GoValue.map d) →
        expandFields ev (cloneMap d) = .ok d' →
        checkOverrides (normFields root) = some ovr →
        parseHierarchy (normFields root) = .ok h →
        resolvePrep ev opts.dataKey root
          = .ok (ovr, true,
              (if goToLower h.merge = "" then "first" else goToLower h.merge),
              h.order, d'))
    ∧ (∀ (ovr : GoMap) (mode entry : String) (rest : List String) (base : GoMap),
        applyFactsString ev entry = .ok (opts.dataKey, true) →
        resolveLoop ev ovr true opts.dataKey mode (entry :: rest) base
          = resolveLoop ev ovr true opts.dataKey mode rest base) := by
  refine ⟨⟨rfl, rfl⟩, ?_, ?_⟩
  · intro d d' ovr h hd hexp hchk hparse
    have hnorm : normalizeNumericValues (GoValue.map root) = GoValue.map (normFields root) := by
      simp [normalizeNumericValues]
    simp only [resolvePrep, hnorm, hchk, hparse, seedBase, hasDataSection, hd, hexp]
  · intro ovr mode entry rest base hA
    exact resolveLoop_datakey_skip ev ovr opts.dataKey mode entry rest base hA

/-- The configured options of the C7 witness, mirroring the repository test
`Resolve(data, facts, Options\x7bDataKey: "config"\x7d, nil)`. -/
def optsConfig : Options := ⟨"config"⟩

/-- The C7 witness document, with its base data under `config`. -/
def docConfigKey : GoMap :=
  [("hierarchy", GoValue.map [("order", GoValue.list [GoValue.str "role:\x7b\x7b r \x7d\x7d"]),
      ("merge", GoValue.str "first")]),
   ("config", GoValue.map [("value", GoValue.int 1)]),
   ("overrides", GoValue.map [("role:web", GoValue.map [("value", GoValue.int 2)])])]

/-- Witness for the C7 theorem: seeding from the `config` section under
`dataKey = "config"`, the skip of an entry resolving to `config`, and the
agreement of `ResolveOpts` under `DefaultOptions` with `Resolve`. -/
theorem resolve_c7_options_witness :
    ResolveOpts evW DefaultOptions docFirstShort = Resolve evW docFirstShort
    ∧ resolvePrep evW "config" docConfigKey
        = .ok ([("role:web", GoValue.map [("value", GoValue.int 2)])], true, "first",
            ["role:\x7b\x7b r \x7d\x7d"], [("value", GoValue.int 1)])
    ∧ resolveLoop evW [] true "config" "first" ["config"] []
        = resolveLoop evW [] true "config" "first" [] [] := by
  refine ⟨(resolve_c7_options evW optsConfig docFirstShort).1.1, ?_, ?_⟩
  · have hinst := (resolve_c7_options evW optsConfig docConfigKey).2.1
      [("value", GoValue.int 1)] [("value", GoValue.int 1)]
      [("role:web", GoValue.map [("value", GoValue.int 2)])]
      ⟨["role:\x7b\x7b r \x7d\x7d"], "first"⟩
      rfl
      (by simp [cloneMap, expandFields, expandValue])
      rfl rfl
    simpa [goToLower] using hinst
  · exact (resolve_c7_options evW optsConfig docConfigKey).2.2 [] "first" "config" [] [] rfl
